import Mathlib

set_option autoImplicit false
set_option maxHeartbeats 1000000

/-!
Shallow embedding of `src/pool.ts` from the `rpool` repository:
the classes `ObjectHandle` and `ObjectPool` and their operations
`resize`, `acquire`, `release`, `releaseAll`, `ObjectHandle.free`,
together with a verification of the pool's stated properties.

Modelling conventions, matching the TypeScript semantics:
* the free-index stack is a `Uint16Array`; we model it as `List Nat` whose
  writes coerce the stored value modulo 2^16 (JS `ToUint16`), and whose
  out-of-bounds writes are silently ignored (`List.set` already ignores
  out-of-bounds indices, exactly like a JS typed array);
* `pointer` is a JS number holding an integer, modelled as `Int` so that
  the invariant `0 ≤ pointer` is a real statement about the code;
* each `ObjectHandle` stores its immutable `id`, the identity of the
  wrapped object produced by the factory (`obj`, the creation index: the
  factory is invoked exactly once per slot, so two handles wrap the same
  element instance iff they sit at the same slot), and the mutable
  `_isReleased` flag (field `isReleased` here);
* `acquire` can end three ways, each carrying the pool state at that
  point: `ok` (returns the handle `objects[id]`, identified by its id),
  `exhausted` (the `Pool exhausted` throw), or `typeError` (the JS
  `TypeError` raised by `undefined._onAcquire()` when the index read from
  the stack does not name an existing handle — pointer has already been
  incremented at that point, exactly as in the source);
* `release` returns the new pool plus a flag recording whether the
  `pool imbalance` console warning fired; `free` likewise.
-/

namespace RPool

/-- Modulus of the `Uint16Array` element coercion (JS `ToUint16`). -/
def U16 : Nat := 65536

/-- `ObjectPool.MAX_POOL_SIZE` from the source: 2^16. -/
def MAX_POOL_SIZE : Nat := 65536

/-- One `ObjectHandle`: its immutable slot `id`, the identity of the wrapped
object instance (creation index of the factory call), and the `_isReleased`
flag. -/
structure ObjectHandle where
  id : Nat
  obj : Nat
  isReleased : Bool
deriving DecidableEq, Repr

instance : Inhabited ObjectHandle := ⟨⟨0, 0, true⟩⟩

/-- The `ObjectPool` state: free-index stack (`Uint16Array`), the `objects`
array of handles, the `pointer`, and the construction-time `initialLength`. -/
structure ObjectPool where
  stack : List Nat
  objects : List ObjectHandle
  pointer : Int
  initialLength : Int
deriving DecidableEq, Repr

/-- The indices written into the new part of the stack by `resize`'s loop
(`newStack[i] = i` for `i` in `[start, start+k)`), with the `Uint16Array`
store coercion. -/
def freshSlots (start k : Nat) : List Nat :=
  (List.range k).map (fun j => (start + j) % U16)

/-- The handles pushed onto `objects` by `resize`'s loop
(`new ObjectHandle(i, obj, this)` for `i` in `[start, start+k)`; the
constructor sets `_isReleased = true`; the factory is called once per slot,
so the wrapped instance is identified by the slot index). -/
def freshHandles (start k : Nat) : List ObjectHandle :=
  (List.range k).map (fun j => ⟨start + j, start + j, true⟩)

/-- The `newLength` computed at the top of `ObjectPool.resize`:
double the current length (or `initialLength` when empty), recomputed as
`min(MAX_POOL_SIZE, currentLength + (initialLength > 0 ? initialLength : 8))`
when that is not a strict, in-bounds increase. -/
def ObjectPool.growTarget (p : ObjectPool) : Int :=
  let currentLength := p.stack.length
  let newLength0 : Int :=
    if 0 < currentLength then (currentLength : Int) * 2 else p.initialLength
  if newLength0 ≤ (currentLength : Int) ∨ (MAX_POOL_SIZE : Int) < newLength0 then
    min (MAX_POOL_SIZE : Int)
      ((currentLength : Int) + (if 0 < p.initialLength then p.initialLength else 8))
  else newLength0

/-- `ObjectPool.resize`: if `newLength ≤ currentLength` nothing happens;
otherwise the stack is replaced by a copy extended with the new indices and
one new handle per new index is pushed onto `objects`. -/
def ObjectPool.resize (p : ObjectPool) : ObjectPool :=
  if p.growTarget ≤ (p.stack.length : Int) then p
  else
    { p with
      stack := p.stack ++ freshSlots p.stack.length (p.growTarget.toNat - p.stack.length),
      objects := p.objects ++ freshHandles p.stack.length (p.growTarget.toNat - p.stack.length) }

/-- The `ObjectPool` constructor: fields initialised to an empty stack and
object list and `pointer = 0`, then one `resize()` call. -/
def ObjectPool.new (initialLength : Int) : ObjectPool :=
  ObjectPool.resize { stack := [], objects := [], pointer := 0, initialLength := initialLength }

/-- Outcome of `ObjectPool.acquire`, each constructor carrying the pool state
at the moment control leaves `acquire`.  `ok p id` returns the handle
`p.objects[id]` (handles are aliased by their slot index). `exhausted` is the
`Pool exhausted and resize failed` throw. `typeError` is the JS `TypeError`
from `undefined._onAcquire()` when the stack hands back an index with no
handle behind it (the pointer increment has already happened). -/
inductive AcquireResult where
  | ok (p : ObjectPool) (id : Nat)
  | exhausted (p : ObjectPool)
  | typeError (p : ObjectPool)
deriving DecidableEq, Repr

/-- The body of `acquire` after the conditional `resize()` call:
check exhaustion, read `stack[pointer]`, increment `pointer`, mark
`objects[id]` acquired (`_onAcquire` sets `_isReleased = false`) and return
that handle. A negative pointer (impossible in well-formed states) would read
`undefined` from the typed array and end in the same `TypeError` as a bad
index, after the pointer increment. -/
def ObjectPool.acquireCore (p : ObjectPool) : AcquireResult :=
  if (p.stack.length : Int) ≤ p.pointer then .exhausted p
  else if p.pointer < 0 then .typeError { p with pointer := p.pointer + 1 }
  else
    let id := p.stack.getD p.pointer.toNat 0
    let q : ObjectPool := { p with pointer := p.pointer + 1 }
    if id < q.objects.length then
      .ok { q with
            objects := q.objects.set id { q.objects.getD id default with isReleased := false } } id
    else .typeError q

/-- `ObjectPool.acquire`: `resize()` exactly when `pointer >= stack.length`,
then the core acquire path. -/
def ObjectPool.acquire (p : ObjectPool) : AcquireResult :=
  if (p.stack.length : Int) ≤ p.pointer then p.resize.acquireCore else p.acquireCore

/-- `ObjectPool.release(id)`: when `pointer > 0`, decrement the pointer and
store `id` at the new pointer position (`Uint16Array` store: value taken
modulo 2^16, out-of-bounds write ignored). Otherwise leave the pool alone and
emit the `pool imbalance` console warning (second component `true`). -/
def ObjectPool.release (p : ObjectPool) (id : Int) : ObjectPool × Bool :=
  if 0 < p.pointer then
    ({ p with
       pointer := p.pointer - 1,
       stack := p.stack.set (p.pointer - 1).toNat ((id % (U16 : Int)).toNat) }, false)
  else (p, true)

/-- `ObjectHandle.free()` for the handle living at slot `i` of pool `p`
(every handle ever created sits at `objects[handle.id]`): no-op when
`_isReleased` is already set, otherwise `pool.release(this.id)` followed by
`this._isReleased = true`. The second component records whether the release
fired the imbalance warning. -/
def ObjectPool.free (p : ObjectPool) (i : Nat) : ObjectPool × Bool :=
  let h := p.objects.getD i default
  if h.isReleased then (p, false)
  else
    let r := p.release (h.id : Int)
    ({ r.1 with objects := r.1.objects.set i { h with isReleased := true } }, r.2)

/-- `ObjectPool.releaseAll()`: for each `i` below `objects.length`, force the
handle's `_isReleased` flag and store `i` at `stack[i]` (typed-array write),
then reset `pointer` to `0`. -/
def ObjectPool.releaseAll (p : ObjectPool) : ObjectPool :=
  { p with
    objects := p.objects.map (fun h => if h.isReleased then h else { h with isReleased := true }),
    stack := (List.range p.objects.length).foldl (fun s i => s.set i (i % U16)) p.stack,
    pointer := 0 }

/-- Invariant I1 of the specification:
`0 <= pointer <= free_stack.length == elements.length <= MAX_CAPACITY`. -/
def ObjectPool.I1 (p : ObjectPool) : Prop :=
  0 ≤ p.pointer ∧ p.pointer ≤ (p.stack.length : Int) ∧
    p.stack.length = p.objects.length ∧ p.objects.length ≤ MAX_POOL_SIZE

instance (p : ObjectPool) : Decidable p.I1 := by
  unfold ObjectPool.I1; infer_instance

/-- Full well-formedness: I1, every stack entry fits in sixteen bits (it was
stored through the `Uint16Array`), and the handle stored at slot `i` carries
id `i` (handles are created only by `resize`, which establishes this). -/
def ObjectPool.WF (p : ObjectPool) : Prop :=
  p.I1 ∧ (∀ x ∈ p.stack, x < U16) ∧
    (∀ i, i < p.objects.length → (p.objects.getD i default).id = i)

instance (p : ObjectPool) : Decidable p.WF := by
  unfold ObjectPool.WF; infer_instance

/-- Iterated `acquire`, keeping only runs in which every step returns a
handle (`ok`); any `exhausted` or `TypeError` outcome aborts the run. -/
def ObjectPool.acquireSeq (p : ObjectPool) : Nat → Option ObjectPool
  | 0 => some p
  | n + 1 =>
    match p.acquire with
    | .ok q _ => q.acquireSeq n
    | _ => none

/-- The loop of `resize` with a fallible factory, running for the `k` new
slot positions `i, i+1, ...`: `ok c` tells whether the factory's `c`-th call
(counted over the pool's lifetime) returns normally. Each iteration first
invokes the factory; on success the new handle is pushed and the loop
continues, on a throw the loop stops with the handles pushed so far (third
component `true` = the exception propagates). -/
def resizeThrowFuel (objects : List ObjectHandle) (i calls : Nat) (ok : Nat → Bool) :
    Nat → List ObjectHandle × Nat × Bool
  | 0 => (objects, calls, false)
  | k + 1 =>
    if ok calls then resizeThrowFuel (objects ++ [⟨i, i, true⟩]) (i + 1) (calls + 1) ok k
    else (objects, calls, true)

/-- `ObjectPool.resize` with a fallible factory, threading the factory call
counter. The new stack is assigned only after the loop completes, so on a
throw the already-pushed handles survive on `objects` while `stack` is left
untouched — exactly the source's statement order. -/
def ObjectPool.resizeThrow (p : ObjectPool) (ok : Nat → Bool) (calls : Nat) :
    ObjectPool × Nat × Bool :=
  if p.growTarget ≤ (p.stack.length : Int) then (p, calls, false)
  else
    match resizeThrowFuel p.objects p.stack.length calls ok
        (p.growTarget.toNat - p.stack.length) with
    | (objs, calls', true) => ({ p with objects := objs }, calls', true)
    | (objs, calls', false) =>
      ({ p with
         objects := objs,
         stack := p.stack ++ freshSlots p.stack.length (p.growTarget.toNat - p.stack.length) },
        calls', false)

/-- A pool at the capacity ceiling with every slot acquired: 65536 slots,
`pointer = 65536`, every handle live. Reached from `new 8` by 65536
acquires; used as a concrete input for the exhaustion property. -/
def fullPool : ObjectPool :=
  { stack := List.range 65536,
    objects := (List.range 65536).map (fun i => ⟨i, i, false⟩),
    pointer := 65536,
    initialLength := 8 }

/-- A pool with capacity 40000 (seed 20000) and every slot acquired: the
state reached from `new 20000` after 20001 acquires (one growth pass
20000 → 40000) and then 19999 more. Concrete input showing the next growth
step is 40000 → 60000, neither a doubling nor the ceiling. -/
def bigPool : ObjectPool :=
  { stack := List.range 40000,
    objects := (List.range 40000).map (fun i => ⟨i, i, false⟩),
    pointer := 40000,
    initialLength := 20000 }

/-- A small pool (capacity 2, both slots acquired, two factory calls already
made): the state of `new ObjectPool(factory, 2)` after two acquires. Concrete
input for the fallible-factory growth behaviour. -/
def throwPool : ObjectPool :=
  { stack := [0, 1],
    objects := [⟨0, 0, false⟩, ⟨1, 1, false⟩],
    pointer := 2,
    initialLength := 2 }

/-- A factory whose fourth call (index 3) throws and all other calls
succeed. -/
def throwFactory : Nat → Bool := fun k => k != 3

/-- A two-slot pool with one live acquisition (slot 0 was acquired; the free
stack's available region holds index 9 ≠ 1 to make the coercion claims
visible): a generic small concrete state used to instantiate the
hypothesis-bearing theorems. -/
def pairPool : ObjectPool :=
  { stack := [5, 9],
    objects := [⟨0, 0, false⟩, ⟨1, 1, true⟩],
    pointer := 1,
    initialLength := 2 }

/-! ## List access helpers

`getD` spelled-out versions of the library's `getElem` lemmas, used because
the embedding reads both arrays through `getD` (total reads, like JS index
access returning `undefined` out of range). -/

theorem getD_set_same {α : Type} (l : List α) (i : Nat) (v d : α) (h : i < l.length) :
    (l.set i v).getD i d = v := by
  rw [List.getD_eq_getElem _ _ (by simpa using h), List.getElem_set_self]

theorem getD_set_ne {α : Type} (l : List α) {i j : Nat} (v d : α) (h : i ≠ j) :
    (l.set i v).getD j d = l.getD j d := by
  by_cases hj : j < l.length
  · rw [List.getD_eq_getElem _ _ (by simpa using hj), List.getD_eq_getElem _ _ hj,
      List.getElem_set_ne h]
  · rw [List.getD_eq_default _ _ (by simpa using Nat.le_of_not_lt hj),
      List.getD_eq_default _ _ (Nat.le_of_not_lt hj)]

theorem getD_append_left {α : Type} (l l' : List α) (i : Nat) (d : α) (h : i < l.length) :
    (l ++ l').getD i d = l.getD i d := by
  rw [List.getD_eq_getElem _ _ (by simp; omega), List.getD_eq_getElem _ _ h,
    List.getElem_append_left h]

theorem getD_append_right {α : Type} (l l' : List α) (i : Nat) (d : α)
    (h : l.length ≤ i) (h' : i < l.length + l'.length) :
    (l ++ l').getD i d = l'.getD (i - l.length) d := by
  rw [List.getD_eq_getElem _ _ (by simp; omega), List.getD_eq_getElem _ _ (by omega),
    List.getElem_append_right h]

theorem getD_mem {α : Type} (l : List α) (i : Nat) (d : α) (h : i < l.length) :
    l.getD i d ∈ l := by
  rw [List.getD_eq_getElem _ _ h]
  exact List.getElem_mem h

/-! ## Lemmas about the fresh parts appended by `resize` -/

theorem length_freshSlots (s k : Nat) : (freshSlots s k).length = k := by
  simp [freshSlots]

theorem length_freshHandles (s k : Nat) : (freshHandles s k).length = k := by
  simp [freshHandles]

theorem getD_freshSlots (s k j : Nat) (h : j < k) :
    (freshSlots s k).getD j 0 = (s + j) % U16 := by
  rw [List.getD_eq_getElem _ _ (by rw [length_freshSlots]; exact h)]
  simp [freshSlots]

theorem getD_freshHandles (s k j : Nat) (h : j < k) :
    (freshHandles s k).getD j default = ⟨s + j, s + j, true⟩ := by
  rw [List.getD_eq_getElem _ _ (by rw [length_freshHandles]; exact h)]
  simp [freshHandles]

theorem mem_freshSlots_lt (s k x : Nat) (h : x ∈ freshSlots s k) : x < U16 := by
  simp only [freshSlots, List.mem_map, List.mem_range] at h
  obtain ⟨j, -, rfl⟩ := h
  exact Nat.mod_lt _ (by simp [U16])

/-! ## Lemmas about `growTarget` and `resize` -/

theorem growTarget_le (p : ObjectPool) : p.growTarget ≤ (MAX_POOL_SIZE : Int) := by
  simp only [ObjectPool.growTarget, MAX_POOL_SIZE]
  split_ifs <;> omega

theorem lt_growTarget (p : ObjectPool) (h : p.stack.length < MAX_POOL_SIZE) :
    (p.stack.length : Int) < p.growTarget := by
  simp only [ObjectPool.growTarget, MAX_POOL_SIZE] at *
  split_ifs <;> omega

theorem growTarget_of_full (p : ObjectPool) (h : p.stack.length = MAX_POOL_SIZE) :
    p.growTarget = (MAX_POOL_SIZE : Int) := by
  simp only [ObjectPool.growTarget, MAX_POOL_SIZE] at *
  split_ifs <;> omega

theorem resize_of_nogrow (p : ObjectPool) (h : p.growTarget ≤ (p.stack.length : Int)) :
    p.resize = p := by
  simp [ObjectPool.resize, h]

theorem resize_of_full (p : ObjectPool) (h : p.stack.length = MAX_POOL_SIZE) :
    p.resize = p :=
  resize_of_nogrow p (by rw [growTarget_of_full p h, h])

theorem resize_of_grow (p : ObjectPool) (h : (p.stack.length : Int) < p.growTarget) :
    p.resize =
      { p with
        stack := p.stack ++ freshSlots p.stack.length (p.growTarget.toNat - p.stack.length),
        objects := p.objects ++ freshHandles p.stack.length (p.growTarget.toNat - p.stack.length) } := by
  simp only [ObjectPool.resize, if_neg (not_le.mpr h)]

theorem resize_pointer (p : ObjectPool) : p.resize.pointer = p.pointer := by
  by_cases h : p.growTarget ≤ (p.stack.length : Int)
  · rw [resize_of_nogrow p h]
  · rw [resize_of_grow p (not_le.mp h)]

theorem resize_initialLength (p : ObjectPool) : p.resize.initialLength = p.initialLength := by
  by_cases h : p.growTarget ≤ (p.stack.length : Int)
  · rw [resize_of_nogrow p h]
  · rw [resize_of_grow p (not_le.mp h)]

theorem resize_stack_length_of_grow (p : ObjectPool) (h : (p.stack.length : Int) < p.growTarget) :
    p.resize.stack.length = p.growTarget.toNat := by
  rw [resize_of_grow p h]
  simp only [List.length_append, length_freshSlots]
  omega

theorem resize_objects_length_of_grow (p : ObjectPool)
    (h : (p.stack.length : Int) < p.growTarget) :
    p.resize.objects.length = p.objects.length + (p.growTarget.toNat - p.stack.length) := by
  rw [resize_of_grow p h]
  simp only [List.length_append, length_freshHandles]

theorem resize_stack_grows (p : ObjectPool) (h : p.stack.length < MAX_POOL_SIZE) :
    p.stack.length < p.resize.stack.length := by
  have hlt := lt_growTarget p h
  rw [resize_stack_length_of_grow p hlt]
  omega

/-! ## Characterisation of `acquireCore`, `acquire` and `release` -/

theorem acquireCore_exhausted_of_le (p : ObjectPool) (h : (p.stack.length : Int) ≤ p.pointer) :
    p.acquireCore = .exhausted p := by
  unfold ObjectPool.acquireCore
  rw [if_pos h]

theorem acquireCore_ok (p : ObjectPool) (h0 : 0 ≤ p.pointer)
    (h1 : p.pointer < (p.stack.length : Int))
    (h2 : p.stack.getD p.pointer.toNat 0 < p.objects.length) :
    p.acquireCore =
      .ok { p with
            pointer := p.pointer + 1,
            objects := p.objects.set (p.stack.getD p.pointer.toNat 0)
              { p.objects.getD (p.stack.getD p.pointer.toNat 0) default with
                isReleased := false } }
        (p.stack.getD p.pointer.toNat 0) := by
  unfold ObjectPool.acquireCore
  rw [if_neg (not_le.mpr h1), if_neg (not_lt.mpr h0)]
  dsimp only
  rw [if_pos h2]

theorem acquireCore_ok_inv (p q : ObjectPool) (i : Nat) (h : p.acquireCore = .ok q i) :
    0 ≤ p.pointer ∧ p.pointer < (p.stack.length : Int) ∧
      i = p.stack.getD p.pointer.toNat 0 ∧ i < p.objects.length ∧
      q = { p with
            pointer := p.pointer + 1,
            objects := p.objects.set i { p.objects.getD i default with isReleased := false } } := by
  unfold ObjectPool.acquireCore at h
  dsimp only at h
  split_ifs at h with h1 h2 h3
  obtain ⟨hq, hi⟩ := AcquireResult.ok.inj h
  exact ⟨le_of_not_lt h2, not_le.mp h1, hi.symm, hi ▸ h3, hi ▸ hq.symm⟩

theorem acquireCore_exhausted_inv (p q : ObjectPool) (h : p.acquireCore = .exhausted q) :
    q = p ∧ (p.stack.length : Int) ≤ p.pointer := by
  unfold ObjectPool.acquireCore at h
  dsimp only at h
  split_ifs at h with h1 h2 h3
  exact ⟨(AcquireResult.exhausted.inj h).symm, h1⟩

theorem acquireCore_typeError_inv (p q : ObjectPool) (h : p.acquireCore = .typeError q) :
    q = { p with pointer := p.pointer + 1 } ∧ p.pointer < (p.stack.length : Int) := by
  unfold ObjectPool.acquireCore at h
  dsimp only at h
  split_ifs at h with h1 h2 h3
  · exact ⟨(AcquireResult.typeError.inj h).symm, not_le.mp h1⟩
  · exact ⟨(AcquireResult.typeError.inj h).symm, not_le.mp h1⟩

theorem acquire_eq_core_of_lt (p : ObjectPool) (h : p.pointer < (p.stack.length : Int)) :
    p.acquire = p.acquireCore := by
  simp [ObjectPool.acquire, not_le.mpr h]

theorem acquire_eq_resize_core_of_le (p : ObjectPool) (h : (p.stack.length : Int) ≤ p.pointer) :
    p.acquire = p.resize.acquireCore := by
  simp [ObjectPool.acquire, h]

theorem acquire_ok_inv (p q : ObjectPool) (i : Nat) (h : p.acquire = .ok q i) :
    ∃ pr, (pr = p ∨ pr = p.resize) ∧ pr.pointer = p.pointer ∧
      pr.initialLength = p.initialLength ∧ p.stack.length ≤ pr.stack.length ∧
      p.objects.length ≤ pr.objects.length ∧
      0 ≤ pr.pointer ∧ pr.pointer < (pr.stack.length : Int) ∧
      i = pr.stack.getD pr.pointer.toNat 0 ∧ i < pr.objects.length ∧
      q = { pr with
            pointer := pr.pointer + 1,
            objects := pr.objects.set i { pr.objects.getD i default with isReleased := false } } := by
  by_cases h1 : (p.stack.length : Int) ≤ p.pointer
  · rw [acquire_eq_resize_core_of_le p h1] at h
    obtain ⟨a, b, c, d, e⟩ := acquireCore_ok_inv _ _ _ h
    refine ⟨p.resize, Or.inr rfl, resize_pointer p, resize_initialLength p, ?_, ?_, a, b, c, d, e⟩
    · by_cases hg : p.growTarget ≤ (p.stack.length : Int)
      · rw [resize_of_nogrow p hg]
      · rw [resize_stack_length_of_grow p (not_le.mp hg)]; omega
    · by_cases hg : p.growTarget ≤ (p.stack.length : Int)
      · rw [resize_of_nogrow p hg]
      · rw [resize_objects_length_of_grow p (not_le.mp hg)]; omega
  · rw [acquire_eq_core_of_lt p (not_le.mp h1)] at h
    obtain ⟨a, b, c, d, e⟩ := acquireCore_ok_inv _ _ _ h
    exact ⟨p, Or.inl rfl, rfl, rfl, le_refl _, le_refl _, a, b, c, d, e⟩

theorem release_of_pos (p : ObjectPool) (id : Int) (h : 0 < p.pointer) :
    p.release id =
      ({ p with
         pointer := p.pointer - 1,
         stack := p.stack.set (p.pointer - 1).toNat ((id % (U16 : Int)).toNat) }, false) := by
  simp [ObjectPool.release, h]

theorem release_of_zero (p : ObjectPool) (id : Int) (h : ¬0 < p.pointer) :
    p.release id = (p, true) := by
  simp [ObjectPool.release, h]

theorem emod_u16_lt (id : Int) : (id % (U16 : Int)).toNat < U16 := by
  have h1 : 0 ≤ id % (U16 : Int) := Int.emod_nonneg id (by simp [U16])
  have h2 : id % (U16 : Int) < (U16 : Int) := Int.emod_lt_of_pos id (by simp [U16])
  omega

/-! ## Preservation of the invariants -/

theorem I1_resize (p : ObjectPool) (h : p.I1) : p.resize.I1 := by
  obtain ⟨h0, h1, h2, h3⟩ := h
  by_cases hg : p.growTarget ≤ (p.stack.length : Int)
  · rw [resize_of_nogrow p hg]; exact ⟨h0, h1, h2, h3⟩
  · have hlt := not_le.mp hg
    have hle := growTarget_le p
    refine ⟨?_, ?_, ?_, ?_⟩
    · rw [resize_pointer]; exact h0
    · rw [resize_pointer, resize_stack_length_of_grow p hlt]; omega
    · rw [resize_stack_length_of_grow p hlt, resize_objects_length_of_grow p hlt]; omega
    · rw [resize_objects_length_of_grow p hlt]
      simp only [MAX_POOL_SIZE] at *
      omega

theorem WF_resize (p : ObjectPool) (h : p.WF) : p.resize.WF := by
  obtain ⟨hI, hs, hid⟩ := h
  refine ⟨I1_resize p hI, ?_, ?_⟩
  · intro x hx
    by_cases hg : p.growTarget ≤ (p.stack.length : Int)
    · rw [resize_of_nogrow p hg] at hx; exact hs x hx
    · rw [resize_of_grow p (not_le.mp hg)] at hx
      simp only [List.mem_append] at hx
      rcases hx with hx | hx
      · exact hs x hx
      · exact mem_freshSlots_lt _ _ _ hx
  · intro i hi
    by_cases hg : p.growTarget ≤ (p.stack.length : Int)
    · rw [resize_of_nogrow p hg] at hi ⊢; exact hid i hi
    · have hlt := not_le.mp hg
      rw [resize_of_grow p hlt] at hi ⊢
      simp only [List.length_append, length_freshHandles] at hi
      by_cases hio : i < p.objects.length
      · rw [getD_append_left _ _ _ _ hio]; exact hid i hio
      · have hlen : p.stack.length = p.objects.length := hI.2.2.1
        rw [getD_append_right _ _ _ _ (Nat.le_of_not_lt hio) (by
          rw [length_freshHandles]; omega)]
        rw [getD_freshHandles _ _ _ (by omega)]
        simp only []
        omega

theorem I1_acquire_ok (p q : ObjectPool) (i : Nat) (h : p.I1) (ha : p.acquire = .ok q i) :
    q.I1 := by
  obtain ⟨pr, hpr, -, -, -, -, h0, h1, -, hio, rfl⟩ := acquire_ok_inv p q i ha
  have hI : pr.I1 := by
    rcases hpr with rfl | rfl
    · exact h
    · exact I1_resize _ h
  obtain ⟨a, b, c, d⟩ := hI
  unfold ObjectPool.I1
  dsimp only
  simp only [List.length_set]
  exact ⟨by omega, by omega, c, d⟩

theorem WF_acquire_ok (p q : ObjectPool) (i : Nat) (h : p.WF) (ha : p.acquire = .ok q i) :
    q.WF := by
  obtain ⟨pr, hpr, -, -, -, -, h0, h1, -, hio, rfl⟩ := acquire_ok_inv p q i ha
  have hW : pr.WF := by
    rcases hpr with rfl | rfl
    · exact h
    · exact WF_resize _ h
  obtain ⟨hI, hs, hid⟩ := hW
  obtain ⟨a, b, c, d⟩ := hI
  refine ⟨?_, ?_, ?_⟩
  · unfold ObjectPool.I1
    dsimp only
    simp only [List.length_set]
    exact ⟨by omega, by omega, c, d⟩
  · intro x hx; exact hs x hx
  · intro j hj
    simp only [List.length_set] at hj
    by_cases hij : i = j
    · subst hij
      rw [getD_set_same _ _ _ _ hj]
      simpa using hid i hj
    · rw [getD_set_ne _ _ _ hij]
      exact hid j hj

theorem I1_release (p : ObjectPool) (id : Int) (h : p.I1) : (p.release id).1.I1 := by
  obtain ⟨a, b, c, d⟩ := h
  by_cases hp : 0 < p.pointer
  · rw [release_of_pos p id hp]
    unfold ObjectPool.I1
    dsimp only
    simp only [List.length_set]
    exact ⟨by omega, by omega, c, d⟩
  · rw [release_of_zero p id hp]
    exact ⟨a, b, c, d⟩

theorem WF_release (p : ObjectPool) (id : Int) (h : p.WF) : (p.release id).1.WF := by
  obtain ⟨hI, hs, hid⟩ := h
  refine ⟨I1_release p id hI, ?_, ?_⟩
  · intro x hx
    by_cases hp : 0 < p.pointer
    · rw [release_of_pos p id hp] at hx
      simp only [] at hx
      rcases List.mem_or_eq_of_mem_set hx with hx | rfl
      · exact hs x hx
      · exact emod_u16_lt id
    · rw [release_of_zero p id hp] at hx
      exact hs x hx
  · intro i hi
    by_cases hp : 0 < p.pointer
    · rw [release_of_pos p id hp] at hi ⊢
      exact hid i hi
    · rw [release_of_zero p id hp] at hi ⊢
      exact hid i hi

theorem free_of_released (p : ObjectPool) (i : Nat)
    (hr : (p.objects.getD i default).isReleased = true) :
    p.free i = (p, false) := by
  unfold ObjectPool.free
  dsimp only
  rw [if_pos hr]

theorem free_of_acquired (p : ObjectPool) (i : Nat)
    (hr : (p.objects.getD i default).isReleased = false) :
    p.free i =
      ({ (p.release ((p.objects.getD i default).id : Int)).1 with
         objects := (p.release ((p.objects.getD i default).id : Int)).1.objects.set i
           { p.objects.getD i default with isReleased := true } },
       (p.release ((p.objects.getD i default).id : Int)).2) := by
  unfold ObjectPool.free
  dsimp only
  rw [hr]
  simp only [Bool.false_eq_true, if_false]

theorem release_objects (p : ObjectPool) (id : Int) : (p.release id).1.objects = p.objects := by
  by_cases hp : 0 < p.pointer
  · rw [release_of_pos p _ hp]
  · rw [release_of_zero p _ hp]

theorem I1_free (p : ObjectPool) (i : Nat) (h : p.I1) : (p.free i).1.I1 := by
  by_cases hr : (p.objects.getD i default).isReleased
  · rw [free_of_released p i hr]
    exact h
  · rw [free_of_acquired p i (Bool.not_eq_true _ ▸ hr)]
    obtain ⟨a, b, c, d⟩ := I1_release p ((p.objects.getD i default).id : Int) h
    unfold ObjectPool.I1
    dsimp only
    simp only [List.length_set]
    exact ⟨a, b, c, d⟩

theorem WF_free (p : ObjectPool) (i : Nat) (h : p.WF) : (p.free i).1.WF := by
  by_cases hr : (p.objects.getD i default).isReleased
  · rw [free_of_released p i hr]
    exact h
  · rw [free_of_acquired p i (Bool.not_eq_true _ ▸ hr)]
    obtain ⟨⟨a, b, c, d⟩, hs, hid⟩ := WF_release p ((p.objects.getD i default).id : Int) h
    refine ⟨?_, ?_, ?_⟩
    · unfold ObjectPool.I1
      dsimp only
      simp only [List.length_set]
      exact ⟨a, b, c, d⟩
    · intro x hx; exact hs x hx
    · intro j hj
      dsimp only at hj ⊢
      simp only [List.length_set] at hj
      by_cases hij : i = j
      · subst hij
        rw [getD_set_same _ _ _ _ hj]
        have hlen : (p.release ((p.objects.getD i default).id : Int)).1.objects.length =
            p.objects.length := by rw [release_objects]
        have := h.2.2 i (by omega)
        simpa using this
      · rw [getD_set_ne _ _ _ hij]
        exact hid j hj

/-! ## The `releaseAll` loop -/

theorem length_foldl_set (l s : List Nat) (f : Nat → Nat) :
    (l.foldl (fun t i => t.set i (f i)) s).length = s.length := by
  induction l generalizing s with
  | nil => rfl
  | cons a l ih =>
    simp only [List.foldl_cons]
    rw [ih, List.length_set]

theorem foldl_set_range_getD (n : Nat) (s : List Nat) (f : Nat → Nat) (j : Nat)
    (hj : j < s.length) :
    ((List.range n).foldl (fun t i => t.set i (f i)) s).getD j 0 =
      if j < n then f j else s.getD j 0 := by
  induction n with
  | zero => simp
  | succ m ih =>
    rw [List.range_succ, List.foldl_append]
    simp only [List.foldl_cons, List.foldl_nil]
    by_cases hjm : j = m
    · subst hjm
      rw [getD_set_same _ _ _ _ (by rw [length_foldl_set]; exact hj), if_pos (by omega)]
    · rw [getD_set_ne _ _ _ (fun hc => hjm hc.symm), ih]
      by_cases hjn : j < m
      · rw [if_pos hjn, if_pos (by omega)]
      · rw [if_neg hjn, if_neg (by omega)]

theorem releaseAll_pointer (p : ObjectPool) : p.releaseAll.pointer = 0 := rfl

theorem releaseAll_initialLength (p : ObjectPool) :
    p.releaseAll.initialLength = p.initialLength := rfl

theorem releaseAll_objects_length (p : ObjectPool) :
    p.releaseAll.objects.length = p.objects.length := by
  simp [ObjectPool.releaseAll]

theorem releaseAll_stack_length (p : ObjectPool) :
    p.releaseAll.stack.length = p.stack.length := by
  unfold ObjectPool.releaseAll
  dsimp only
  rw [length_foldl_set]

theorem releaseAll_objects_getD (p : ObjectPool) (i : Nat) (h : i < p.objects.length) :
    p.releaseAll.objects.getD i default =
      { p.objects.getD i default with isReleased := true } := by
  unfold ObjectPool.releaseAll
  dsimp only
  rw [List.getD_eq_getElem _ _ (by simpa using h), List.getElem_map,
    List.getD_eq_getElem _ _ h]
  by_cases hr : (p.objects[i]).isReleased
  · rw [if_pos hr]
    cases hp : p.objects[i] with
    | mk a b c => cases c <;> simp_all
  · rw [if_neg hr]

theorem releaseAll_stack_getD (p : ObjectPool) (j : Nat) (hj : j < p.stack.length) :
    p.releaseAll.stack.getD j 0 =
      if j < p.objects.length then j % U16 else p.stack.getD j 0 := by
  unfold ObjectPool.releaseAll
  dsimp only
  rw [foldl_set_range_getD _ _ _ _ hj]

theorem I1_releaseAll (p : ObjectPool) (h : p.I1) : p.releaseAll.I1 := by
  obtain ⟨-, -, c, d⟩ := h
  refine ⟨le_refl _, ?_, ?_, ?_⟩
  · rw [releaseAll_pointer, releaseAll_stack_length]
    omega
  · rw [releaseAll_stack_length, releaseAll_objects_length]
    exact c
  · rw [releaseAll_objects_length]
    exact d

theorem WF_releaseAll (p : ObjectPool) (h : p.WF) : p.releaseAll.WF := by
  obtain ⟨hI, hs, hid⟩ := h
  refine ⟨I1_releaseAll p hI, ?_, ?_⟩
  · intro x hx
    have hlen : p.releaseAll.stack.length = p.stack.length := releaseAll_stack_length p
    obtain ⟨k, hk, rfl⟩ := List.getElem_of_mem hx
    rw [← List.getD_eq_getElem _ 0 hk]
    rw [releaseAll_stack_getD p k (by omega)]
    by_cases hko : k < p.objects.length
    · rw [if_pos hko]
      exact Nat.mod_lt _ (by simp [U16])
    · rw [if_neg hko]
      exact hs _ (getD_mem _ _ _ (by omega))
  · intro i hi
    rw [releaseAll_objects_length] at hi
    rw [releaseAll_objects_getD p i hi]
    exact hid i hi

/-! ## Constructor, further inversions, operation specifications -/

theorem WF_emptyPool (init : Int) :
    ({ stack := [], objects := [], pointer := 0, initialLength := init } : ObjectPool).WF := by
  refine ⟨⟨le_refl _, by simp, rfl, by simp [MAX_POOL_SIZE]⟩, by simp, by simp⟩

theorem WF_new (init : Int) : (ObjectPool.new init).WF :=
  WF_resize _ (WF_emptyPool init)

theorem resize_dichotomy (p : ObjectPool) :
    p.resize = p ∨ p.stack.length < p.resize.stack.length := by
  by_cases hg : p.growTarget ≤ (p.stack.length : Int)
  · exact Or.inl (resize_of_nogrow p hg)
  · right
    rw [resize_stack_length_of_grow p (not_le.mp hg)]
    have := not_le.mp hg
    omega

theorem acquire_exhausted_inv (p q : ObjectPool) (h : p.acquire = .exhausted q) :
    (q = p ∨ q = p.resize) ∧ (q.stack.length : Int) ≤ q.pointer := by
  by_cases h1 : (p.stack.length : Int) ≤ p.pointer
  · rw [acquire_eq_resize_core_of_le p h1] at h
    obtain ⟨rfl, hle⟩ := acquireCore_exhausted_inv _ _ h
    exact ⟨Or.inr rfl, hle⟩
  · rw [acquire_eq_core_of_lt p (not_le.mp h1)] at h
    obtain ⟨rfl, hle⟩ := acquireCore_exhausted_inv _ _ h
    exact ⟨Or.inl rfl, hle⟩

theorem acquire_typeError_inv (p q : ObjectPool) (h : p.acquire = .typeError q) :
    ∃ pr, (pr = p ∨ pr = p.resize) ∧ q = { pr with pointer := pr.pointer + 1 } ∧
      pr.pointer < (pr.stack.length : Int) := by
  by_cases h1 : (p.stack.length : Int) ≤ p.pointer
  · rw [acquire_eq_resize_core_of_le p h1] at h
    obtain ⟨hq, hlt⟩ := acquireCore_typeError_inv _ _ h
    exact ⟨p.resize, Or.inr rfl, hq, hlt⟩
  · rw [acquire_eq_core_of_lt p (not_le.mp h1)] at h
    obtain ⟨hq, hlt⟩ := acquireCore_typeError_inv _ _ h
    exact ⟨p, Or.inl rfl, hq, hlt⟩

theorem cast_emod_u16 (n : Nat) (hn : n < U16) : (((n : Int)) % (U16 : Int)).toNat = n := by
  simp only [U16] at *
  omega

/-- Field-level summary of a successful `acquire` on a well-formed pool. -/
theorem acquire_ok_spec (p q : ObjectPool) (i : Nat) (hwf : p.WF) (h : p.acquire = .ok q i) :
    q.pointer = p.pointer + 1 ∧ 0 ≤ p.pointer ∧ i < U16 ∧ i < q.objects.length ∧
      (q.objects.getD i default).isReleased = false ∧
      (q.objects.getD i default).id = i ∧
      q.pointer ≤ (q.stack.length : Int) ∧
      (∀ j, j ≠ i → q.objects.getD j default = p.resize.objects.getD j default ∨
        q.objects.getD j default = p.objects.getD j default) ∧
      (∀ j, j < p.objects.length → j ≠ i →
        q.objects.getD j default = p.objects.getD j default) ∧
      p.objects.length ≤ q.objects.length := by
  obtain ⟨pr, hpr, hptr, -, hsl, hol, h0, hlt, hia, hio, rfl⟩ := acquire_ok_inv p q i h
  have hwfr : pr.WF := by
    rcases hpr with rfl | rfl
    · exact hwf
    · exact WF_resize _ hwf
  have hptrlt : pr.pointer.toNat < pr.stack.length := by omega
  have hi16 : i < U16 := by
    subst hia
    exact hwfr.2.1 _ (getD_mem _ _ _ hptrlt)
  have hidr : (pr.objects.getD i default).id = i := hwfr.2.2 i hio
  refine ⟨by simp [hptr], hptr ▸ h0, hi16, ?_, ?_, ?_, ?_, ?_, ?_, ?_⟩
  · dsimp only
    rw [List.length_set]
    exact hio
  · dsimp only
    rw [getD_set_same _ _ _ _ hio]
  · dsimp only
    rw [getD_set_same _ _ _ _ hio]
    exact hidr
  · dsimp only
    omega
  · intro j hj
    dsimp only
    rw [getD_set_ne _ _ _ (fun hc => hj hc.symm)]
    rcases hpr with rfl | rfl
    · exact Or.inr rfl
    · exact Or.inl rfl
  · intro j hjl hj
    dsimp only
    rw [getD_set_ne _ _ _ (fun hc => hj hc.symm)]
    rcases hpr with rfl | rfl
    · rfl
    · by_cases hg : p.growTarget ≤ (p.stack.length : Int)
      · rw [resize_of_nogrow p hg]
      · rw [resize_of_grow p (not_le.mp hg)]
        dsimp only
        exact getD_append_left _ _ _ _ hjl
  · dsimp only
    rw [List.length_set]
    exact hol

/-- Field-level summary of `free` on a handle in the acquired state, when the
pool tracks at least one live acquisition. -/
theorem free_acquired_spec (p : ObjectPool) (i : Nat)
    (hrel : (p.objects.getD i default).isReleased = false)
    (hid : (p.objects.getD i default).id = i)
    (hi16 : i < U16) (hp : 0 < p.pointer) :
    (p.free i).1.pointer = p.pointer - 1 ∧
      (p.free i).1.stack = p.stack.set (p.pointer - 1).toNat i ∧
      (p.free i).1.objects.length = p.objects.length ∧
      (p.free i).1.stack.length = p.stack.length ∧
      (p.free i).1.initialLength = p.initialLength ∧
      (∀ j, j ≠ i → (p.free i).1.objects.getD j default = p.objects.getD j default) := by
  rw [free_of_acquired p i hrel, hid, release_of_pos p _ hp]
  dsimp only
  rw [cast_emod_u16 i hi16]
  refine ⟨rfl, rfl, ?_, by rw [List.length_set], rfl, ?_⟩
  · rw [List.length_set]
  · intro j hj
    rw [getD_set_ne _ _ _ (fun hc => hj hc.symm)]

/-! ## The fallible-factory loop -/

theorem freshHandles_succ (s m : Nat) :
    freshHandles s (m + 1) = ⟨s, s, true⟩ :: freshHandles (s + 1) m := by
  simp only [freshHandles, List.range_succ_eq_map, List.map_cons, List.map_map, Nat.add_zero]
  congr 1
  congr 1
  funext j
  have hj : s + (j + 1) = s + 1 + j := by omega
  simp [Function.comp, hj]

theorem resizeThrowFuel_ok (ok : Nat → Bool) (hok : ∀ c, ok c = true) (k : Nat) :
    ∀ i calls (objects : List ObjectHandle),
      resizeThrowFuel objects i calls ok k =
        (objects ++ freshHandles i k, calls + k, false) := by
  induction k with
  | zero =>
    intro i calls objects
    simp [resizeThrowFuel, freshHandles]
  | succ m ih =>
    intro i calls objects
    rw [resizeThrowFuel, if_pos (hok calls), ih (i + 1) (calls + 1) _,
      freshHandles_succ, List.append_assoc]
    have hc : calls + 1 + m = calls + (m + 1) := by omega
    rw [hc]
    rfl

theorem resizeThrowFuel_threw (ok : Nat → Bool) (k : Nat) :
    ∀ i calls (objects : List ObjectHandle),
      (resizeThrowFuel objects i calls ok k).2.2 = true →
      ∃ hs, (resizeThrowFuel objects i calls ok k).1 = objects ++ hs := by
  induction k with
  | zero =>
    intro i calls objects h
    simp [resizeThrowFuel] at h
  | succ m ih =>
    intro i calls objects h
    rw [resizeThrowFuel] at h ⊢
    by_cases hcall : ok calls = true
    · rw [if_pos hcall] at h ⊢
      obtain ⟨hs, hhs⟩ := ih (i + 1) (calls + 1) (objects ++ [⟨i, i, true⟩]) h
      exact ⟨⟨i, i, true⟩ :: hs, by rw [hhs, List.append_assoc]; rfl⟩
    · rw [if_neg hcall] at h ⊢
      exact ⟨[], by simp⟩

/-! ## Idempotence of `free` -/

theorem free_free (p : ObjectPool) (i : Nat) : ((p.free i).1.free i).1 = (p.free i).1 := by
  by_cases hr : (p.objects.getD i default).isReleased
  · rw [free_of_released p i hr, free_of_released p i hr]
  · have hrf : (p.objects.getD i default).isReleased = false := by
      revert hr
      cases (p.objects.getD i default).isReleased <;> simp
    have hi : i < p.objects.length := by
      by_contra hc
      rw [List.getD_eq_default _ _ (Nat.le_of_not_lt hc)] at hrf
      exact absurd hrf (by decide)
    rw [free_of_acquired p i hrf]
    dsimp only
    have hgd :
        (((p.release ((p.objects.getD i default).id : Int)).1.objects.set i
            { p.objects.getD i default with isReleased := true }).getD i default).isReleased =
          true := by
      rw [getD_set_same _ _ _ _ (by rw [release_objects]; exact hi)]
    rw [free_of_released _ i hgd]

/-- C3: for every slot `i` and every starting state, calling `free()` `n ≥ 1`
times leaves the pool (pointer, free stack, every handle's flag — the whole
state) exactly as one call does: the second and later calls are no-ops. This
is stated for arbitrary states, hence in particular for a handle currently in
the acquired state. -/
theorem claim_C3_free_idempotent (p : ObjectPool) (i : Nat) (n : Nat) (hn : 0 < n) :
    Nat.iterate (fun q : ObjectPool => (q.free i).1) n p = (p.free i).1 := by
  obtain ⟨m, rfl⟩ : ∃ m, n = m + 1 := ⟨n - 1, by omega⟩
  clear hn
  induction m generalizing p with
  | zero => rfl
  | succ k ih =>
    have hstep : Nat.iterate (fun q : ObjectPool => (q.free i).1) (k + 1 + 1) p =
        Nat.iterate (fun q : ObjectPool => (q.free i).1) (k + 1) ((p.free i).1) := rfl
    rw [hstep, ih ((p.free i).1), free_free]

theorem claim_C3_witness :
    0 < 3 ∧
      Nat.iterate (fun q : ObjectPool => (q.free 0).1) 3 pairPool = (pairPool.free 0).1 :=
  ⟨by decide, claim_C3_free_idempotent pairPool 0 3 (by decide)⟩

/-- C6: the internal grow (`resize`) never changes `pointer`, only appends to
the stack and the object store, and leaves every pre-existing handle value
(slot id, wrapped instance identity, `_isReleased` flag) and every
pre-existing stack entry untouched; hence any handle acquired before a grow
refers to the same slot, element and state afterwards. -/
theorem claim_C6_resize_frame (p : ObjectPool) :
    p.resize.pointer = p.pointer ∧
      (∃ ts hs, p.resize.stack = p.stack ++ ts ∧ p.resize.objects = p.objects ++ hs) ∧
      (∀ i, i < p.objects.length →
        p.resize.objects.getD i default = p.objects.getD i default) ∧
      (∀ i, i < p.stack.length → p.resize.stack.getD i 0 = p.stack.getD i 0) := by
  refine ⟨resize_pointer p, ?_, ?_, ?_⟩
  · by_cases hg : p.growTarget ≤ (p.stack.length : Int)
    · exact ⟨[], [], by rw [resize_of_nogrow p hg]; simp, by rw [resize_of_nogrow p hg]; simp⟩
    · refine ⟨freshSlots p.stack.length (p.growTarget.toNat - p.stack.length),
        freshHandles p.stack.length (p.growTarget.toNat - p.stack.length), ?_, ?_⟩ <;>
        rw [resize_of_grow p (not_le.mp hg)]
  · intro i hi
    by_cases hg : p.growTarget ≤ (p.stack.length : Int)
    · rw [resize_of_nogrow p hg]
    · rw [resize_of_grow p (not_le.mp hg)]
      dsimp only
      exact getD_append_left _ _ _ _ hi
  · intro i hi
    by_cases hg : p.growTarget ≤ (p.stack.length : Int)
    · rw [resize_of_nogrow p hg]
    · rw [resize_of_grow p (not_le.mp hg)]
      dsimp only
      exact getD_append_left _ _ _ _ hi

/-- C8: `release(id)` is a total operation (it never raises). When
`pointer == 0` it returns the pool unchanged and fires the imbalance
warning; when `pointer > 0` it decrements the pointer, writes `id` (as a
16-bit value — exactly `id` whenever `id` is an actual slot id, i.e.
`0 ≤ id < 2^16`) at the new pointer position, and changes nothing else. -/
theorem claim_C8_release (p : ObjectPool) (id : Int) (h : p.I1) :
    (p.pointer = 0 → p.release id = (p, true)) ∧
      (0 < p.pointer →
        (p.release id).2 = false ∧
          (p.release id).1.pointer = p.pointer - 1 ∧
          (p.release id).1.objects = p.objects ∧
          (p.release id).1.initialLength = p.initialLength ∧
          (p.release id).1.stack.length = p.stack.length ∧
          (p.release id).1.stack.getD (p.pointer - 1).toNat 0 = (id % (U16 : Int)).toNat ∧
          (0 ≤ id → id < (U16 : Int) →
            (p.release id).1.stack.getD (p.pointer - 1).toNat 0 = id.toNat) ∧
          (∀ j, j ≠ (p.pointer - 1).toNat →
            (p.release id).1.stack.getD j 0 = p.stack.getD j 0)) := by
  obtain ⟨hI0, hI1, -, -⟩ := h
  constructor
  · intro h0
    exact release_of_zero p id (by omega)
  · intro hp
    rw [release_of_pos p id hp]
    dsimp only
    have hidx : (p.pointer - 1).toNat < p.stack.length := by omega
    refine ⟨rfl, rfl, rfl, rfl, List.length_set _ _ _, ?_, ?_, ?_⟩
    · exact getD_set_same _ _ _ _ hidx
    · intro ha hb
      rw [getD_set_same _ _ _ _ hidx, Int.emod_eq_of_lt ha hb]
    · intro j hj
      exact getD_set_ne _ _ _ (fun hc => hj hc.symm)

theorem claim_C8_witness :
    pairPool.I1 ∧ (pairPool.release 7).2 = false ∧
      (pairPool.release 7).1.stack.getD 0 0 = 7 ∧
      pairPool.release (-2) ≠ (pairPool, true) := by
  have h := claim_C8_release pairPool 7 (by decide)
  obtain ⟨-, -, -, -, -, hst, -, -⟩ := h.2 (by decide)
  refine ⟨by decide, (h.2 (by decide)).1, ?_, by decide⟩
  have h0 : ((pairPool.pointer - 1).toNat : Nat) = 0 := by decide
  rw [h0] at hst
  rw [hst]
  decide

/-- C10: `release` validates nothing: for every integer `id` (negative or
out of range included) and every pool with `pointer > 0`, the value actually
stored in the free stack is `id` reduced modulo 2^16 (the `Uint16Array`
element coercion), and whenever that reduced value names an existing slot the
very next acquire hands out that slot's handle. -/
theorem claim_C10_release_coerces (p : ObjectPool) (id : Int) (h : p.I1) (hp : 0 < p.pointer) :
    (p.release id).1.stack.getD (p.pointer - 1).toNat 0 = (id % (U16 : Int)).toNat ∧
      ((id % (U16 : Int)).toNat < p.objects.length →
        ∃ q, (p.release id).1.acquire = .ok q ((id % (U16 : Int)).toNat)) := by
  obtain ⟨hI0, hI1, hIl, -⟩ := h
  have hidx : (p.pointer - 1).toNat < p.stack.length := by omega
  have hstored : (p.release id).1.stack.getD (p.pointer - 1).toNat 0 =
      (id % (U16 : Int)).toNat := by
    rw [release_of_pos p id hp]
    dsimp only
    exact getD_set_same _ _ _ _ hidx
  refine ⟨hstored, ?_⟩
  intro hm
  have hptr : (p.release id).1.pointer = p.pointer - 1 := by
    rw [release_of_pos p id hp]
  have hsl : (p.release id).1.stack.length = p.stack.length := by
    rw [release_of_pos p id hp]
    dsimp only
    exact List.length_set _ _ _
  have hol : (p.release id).1.objects.length = p.objects.length := by
    rw [release_objects]
  have hread : (p.release id).1.stack.getD ((p.release id).1.pointer).toNat 0 =
      (id % (U16 : Int)).toNat := by
    rw [hptr]
    exact hstored
  rw [acquire_eq_core_of_lt _ (by rw [hptr, hsl]; omega)]
  have hok := acquireCore_ok (p.release id).1 (by rw [hptr]; omega)
    (by rw [hptr, hsl]; omega) (by rw [hread, hol]; exact hm)
  rw [hread] at hok
  exact ⟨_, hok⟩

theorem claim_C10_witness :
    pairPool.I1 ∧ 0 < pairPool.pointer ∧
      (pairPool.release (-65535)).1.stack.getD 0 0 = 1 ∧
      (∃ q, (pairPool.release (-65535)).1.acquire = .ok q 1) := by
  have h := claim_C10_release_coerces pairPool (-65535) (by decide) (by decide)
  have hm : (((-65535 : Int)) % (U16 : Int)).toNat = 1 := by decide
  have h0 : ((pairPool.pointer - 1).toNat : Nat) = 0 := by decide
  refine ⟨by decide, by decide, ?_, ?_⟩
  · have := h.1
    rw [h0, hm] at this
    exact this
  · have := h.2 (by rw [hm]; decide)
    rw [hm] at this
    exact this

/-- C4: invariant I1 (`0 ≤ pointer ≤ free_stack.length = elements.length ≤
65536`) is established by the constructor for every initial length (the
factory builds handle contents only, never the pool's structure) and is
preserved by `resize`, `release`, `releaseAll` and every outcome of
`acquire`. -/
theorem claim_C4_I1 (init : Int) (p : ObjectPool) (id : Int) (h : p.I1) :
    (ObjectPool.new init).I1 ∧ p.resize.I1 ∧ (p.release id).1.I1 ∧ p.releaseAll.I1 ∧
      (∀ q i, p.acquire = .ok q i → q.I1) ∧
      (∀ q, p.acquire = .exhausted q → q.I1) ∧
      (∀ q, p.acquire = .typeError q → q.I1) := by
  refine ⟨(WF_new init).1, I1_resize p h, I1_release p id h, I1_releaseAll p h, ?_, ?_, ?_⟩
  · intro q i ha
    exact I1_acquire_ok p q i h ha
  · intro q ha
    obtain ⟨hq, -⟩ := acquire_exhausted_inv p q ha
    rcases hq with rfl | rfl
    · exact h
    · exact I1_resize p h
  · intro q ha
    obtain ⟨pr, hpr, rfl, hlt⟩ := acquire_typeError_inv p q ha
    have hI : pr.I1 := by
      rcases hpr with rfl | rfl
      · exact h
      · exact I1_resize p h
    obtain ⟨a, b, c, d⟩ := hI
    exact ⟨by dsimp only; omega, by dsimp only; omega, c, d⟩

theorem claim_C4_witness :
    pairPool.I1 ∧ (ObjectPool.new (-3)).I1 ∧ pairPool.releaseAll.I1 := by
  have h := claim_C4_I1 (-3) pairPool 0 (by decide)
  exact ⟨by decide, h.1, h.2.2.2.1⟩

/-- C1: on a well-formed pool, `acquire` throws the pool-exhausted error
exactly when the capacity has reached the 65536-slot ceiling with every slot
handed out (`pointer == stack.length == 65536`); in that situation the throw
leaves the pool unchanged, and after releasing one slot the next `acquire`
succeeds and returns a handle. -/
theorem claim_C1_exhaustion (p : ObjectPool) (h : p.I1) :
    ((∃ q, p.acquire = .exhausted q) ↔
        p.pointer = (65536 : Int) ∧ p.stack.length = 65536) ∧
      (p.pointer = (65536 : Int) → p.stack.length = 65536 →
        p.acquire = .exhausted p ∧
          ∀ id : Int, ∃ q j, ((p.release id).1).acquire = .ok q j) := by
  obtain ⟨hI0, hI1, hIl, hIm⟩ := h
  have hu : U16 = 65536 := rfl
  have hmx : MAX_POOL_SIZE = 65536 := rfl
  have hl65 : p.stack.length ≤ 65536 := by rw [hIl]; exact hIm
  have hfull : p.pointer = (65536 : Int) → p.stack.length = 65536 →
      p.acquire = .exhausted p := by
    intro hp hl
    rw [acquire_eq_resize_core_of_le p (by omega),
      resize_of_full p (by rw [hl]; rfl)]
    exact acquireCore_exhausted_of_le p (by omega)
  refine ⟨⟨?_, ?_⟩, ?_⟩
  · rintro ⟨q, hq⟩
    by_cases hl : p.stack.length = 65536
    · obtain ⟨hqe, hle⟩ := acquire_exhausted_inv p q hq
      refine ⟨?_, hl⟩
      rcases hqe with rfl | rfl
      · omega
      · rw [resize_of_full p (by rw [hl]; rfl)] at hle
        omega
    · exfalso
      have hgrow := resize_stack_grows p (by omega)
      have hrp := resize_pointer p
      obtain ⟨hqe, hle⟩ := acquire_exhausted_inv p q hq
      rcases hqe with hq' | hq'
      · rw [hq'] at hle
        rw [acquire_eq_resize_core_of_le p (by omega)] at hq
        obtain ⟨-, hle2⟩ := acquireCore_exhausted_inv _ _ hq
        rw [hrp] at hle2
        omega
      · rw [hq', hrp] at hle
        omega
  · rintro ⟨hp, hl⟩
    exact ⟨p, hfull hp hl⟩
  · intro hp hl
    refine ⟨hfull hp hl, ?_⟩
    intro id
    have hp0 : 0 < p.pointer := by omega
    have hptr : (p.release id).1.pointer = p.pointer - 1 := by
      rw [release_of_pos p id hp0]
    have hsl : (p.release id).1.stack.length = p.stack.length := by
      rw [release_of_pos p id hp0]
      dsimp only
      exact List.length_set _ _ _
    have hol : (p.release id).1.objects.length = p.objects.length := by
      rw [release_objects]
    have hidx : (p.pointer - 1).toNat < p.stack.length := by omega
    have hread : (p.release id).1.stack.getD ((p.release id).1.pointer).toNat 0 =
        (id % (U16 : Int)).toNat := by
      rw [hptr, release_of_pos p id hp0]
      dsimp only
      exact getD_set_same _ _ _ _ hidx
    have hm := emod_u16_lt id
    have hok := acquireCore_ok (p.release id).1 (by rw [hptr]; omega)
      (by rw [hptr, hsl]; omega) (by rw [hread, hol]; omega)
    rw [← acquire_eq_core_of_lt _ (by rw [hptr, hsl]; omega)] at hok
    exact ⟨_, _, hok⟩

theorem claim_C1_witness :
    fullPool.I1 ∧ fullPool.pointer = (65536 : Int) ∧ fullPool.stack.length = 65536 ∧
      fullPool.acquire = .exhausted fullPool ∧
      ∃ q j, ((fullPool.release 3).1).acquire = .ok q j := by
  have hsl : fullPool.stack.length = 65536 := by simp [fullPool]
  have hol : fullPool.objects.length = 65536 := by simp [fullPool]
  have hI : fullPool.I1 := by
    refine ⟨by norm_num [fullPool], ?_, ?_, ?_⟩
    · rw [hsl]
      norm_num [fullPool]
    · rw [hsl, hol]
    · rw [hol]
      exact Nat.le.refl
  have h := claim_C1_exhaustion fullPool hI
  obtain ⟨hx, hr⟩ := h.2 rfl hsl
  exact ⟨hI, rfl, hsl, hx, hr 3⟩

/-- A run of `m` acquires from a state whose free region holds `m` in-range
indices succeeds step by step, never calls a growing `resize` (the stack is
returned identically), and advances the pointer by `m`. -/
theorem acquireSeq_run (m : Nat) :
    ∀ (k : Nat) (s : ObjectPool),
      s.pointer = (k : Int) →
      k + m ≤ s.stack.length →
      s.stack.length = s.objects.length →
      (∀ j, j < s.stack.length → s.stack.getD j 0 < s.objects.length) →
      ∃ q, s.acquireSeq m = some q ∧ q.stack = s.stack ∧
        q.objects.length = s.objects.length ∧ q.pointer = ((k + m : Nat) : Int) := by
  induction m with
  | zero =>
    intro k s hk hle hlen hb
    exact ⟨s, rfl, rfl, rfl, by rw [hk]; norm_num⟩
  | succ m ih =>
    intro k s hk hle hlen hb
    have h0 : 0 ≤ s.pointer := by omega
    have h1 : s.pointer < (s.stack.length : Int) := by omega
    have h2 : s.stack.getD s.pointer.toNat 0 < s.objects.length := hb _ (by omega)
    have hok := acquireCore_ok s h0 h1 h2
    rw [← acquire_eq_core_of_lt s h1] at hok
    have hseq : s.acquireSeq (m + 1) =
        ({ s with
           pointer := s.pointer + 1,
           objects := s.objects.set (s.stack.getD s.pointer.toNat 0)
             { s.objects.getD (s.stack.getD s.pointer.toNat 0) default with
               isReleased := false } } : ObjectPool).acquireSeq m := by
      rw [ObjectPool.acquireSeq, hok]
    obtain ⟨q, hq, hqs, hqol, hqp⟩ := ih (k + 1)
      { s with
        pointer := s.pointer + 1,
        objects := s.objects.set (s.stack.getD s.pointer.toNat 0)
          { s.objects.getD (s.stack.getD s.pointer.toNat 0) default with
            isReleased := false } }
      (by dsimp only; omega)
      (by dsimp only; omega)
      (by dsimp only; rw [List.length_set]; exact hlen)
      (by dsimp only; intro j hj; rw [List.length_set]; exact hb j hj)
    refine ⟨q, ?_, ?_, ?_, ?_⟩
    · rw [hseq]
      exact hq
    · rw [hqs]
    · rw [hqol]
      dsimp only
      rw [List.length_set]
    · rw [hqp]
      congr 1
      omega

/-- C7: after `releaseAll()` the pointer is zero, every handle is flagged
released, and `free_stack[i] = i` on the whole store; consequently a run of
exactly `elements.length` acquires succeeds with the stack never replaced —
and since any growth strictly enlarges the stack, no growth is triggered. -/
theorem claim_C7_releaseAll (p : ObjectPool) (h : p.I1) :
    p.releaseAll.pointer = 0 ∧
      (∀ i, i < p.releaseAll.objects.length →
        (p.releaseAll.objects.getD i default).isReleased = true) ∧
      (∀ i, i < p.releaseAll.stack.length → p.releaseAll.stack.getD i 0 = i) ∧
      (∃ q, p.releaseAll.acquireSeq p.objects.length = some q ∧
        q.stack = p.releaseAll.stack ∧ q.pointer = (p.objects.length : Int)) := by
  obtain ⟨-, -, hIl, hIm⟩ := h
  have hmx : MAX_POOL_SIZE = 65536 := rfl
  have hu : U16 = 65536 := rfl
  have hstack : ∀ i, i < p.releaseAll.stack.length → p.releaseAll.stack.getD i 0 = i := by
    intro i hi
    rw [releaseAll_stack_length] at hi
    rw [releaseAll_stack_getD p i hi, if_pos (by omega), Nat.mod_eq_of_lt (by omega)]
  refine ⟨releaseAll_pointer p, ?_, hstack, ?_⟩
  · intro i hi
    rw [releaseAll_objects_length] at hi
    rw [releaseAll_objects_getD p i hi]
  · obtain ⟨q, hq, hqs, -, hqp⟩ := acquireSeq_run p.objects.length 0 p.releaseAll
      (releaseAll_pointer p)
      (by rw [releaseAll_stack_length]; omega)
      (by rw [releaseAll_stack_length, releaseAll_objects_length]; exact hIl)
      (by
        intro j hj
        rw [hstack j hj, releaseAll_objects_length]
        rw [releaseAll_stack_length] at hj
        omega)
    refine ⟨q, hq, hqs, by rw [hqp]; norm_num⟩

theorem claim_C7_witness :
    pairPool.I1 ∧ pairPool.releaseAll.pointer = 0 ∧
      (∃ q, pairPool.releaseAll.acquireSeq pairPool.objects.length = some q ∧
        q.stack = pairPool.releaseAll.stack ∧ q.pointer = (pairPool.objects.length : Int)) := by
  have h := claim_C7_releaseAll pairPool (by decide)
  exact ⟨by decide, h.1, h.2.2.2⟩

/-- Two successive acquires read consecutive stack positions: from a state
whose next two free-stack cells hold in-range indices `a2` then `b2`, the
next acquire returns the handle `a2` and the one after returns `b2`. -/
theorem acquire_two (s : ObjectPool) (a2 b2 : Nat)
    (h0 : 0 ≤ s.pointer) (hlen : s.pointer + 2 ≤ (s.stack.length : Int))
    (hra : s.stack.getD s.pointer.toNat 0 = a2)
    (hrb : s.stack.getD (s.pointer.toNat + 1) 0 = b2)
    (hao : a2 < s.objects.length) (hbo : b2 < s.objects.length) :
    ∃ q r, s.acquire = .ok q a2 ∧ q.acquire = .ok r b2 := by
  have hok1 := acquireCore_ok s h0 (by omega) (by rw [hra]; exact hao)
  rw [hra] at hok1
  rw [← acquire_eq_core_of_lt s (by omega)] at hok1
  have hidx : (s.pointer + 1).toNat = s.pointer.toNat + 1 := by omega
  have hread2 : ({ s with
        pointer := s.pointer + 1,
        objects := s.objects.set a2 { s.objects.getD a2 default with isReleased := false } }
          : ObjectPool).stack.getD
      ({ s with
         pointer := s.pointer + 1,
         objects := s.objects.set a2 { s.objects.getD a2 default with isReleased := false } }
           : ObjectPool).pointer.toNat 0 = b2 := by
    dsimp only
    rw [hidx]
    exact hrb
  have hok2 := acquireCore_ok
    { s with
      pointer := s.pointer + 1,
      objects := s.objects.set a2 { s.objects.getD a2 default with isReleased := false } }
    (by dsimp only; omega) (by dsimp only; omega)
    (by rw [hread2]; dsimp only; rw [List.length_set]; exact hbo)
  rw [hread2] at hok2
  rw [← acquire_eq_core_of_lt _ (by dsimp only; omega)] at hok2
  exact ⟨_, _, hok1, hok2⟩

/-- C2: LIFO reuse. If two handles `a` and `b` are acquired in that order
(from any well-formed state, growth included) and then freed in the order
`b` first, `a` second, the next acquire returns the same handle — hence the
same element instance — as `a`, and the acquire after that returns the
same instance as `b`: each release writes the released index exactly where
the next acquire reads. -/
theorem claim_C2_lifo (p p1 p2 : ObjectPool) (a b : Nat) (hwf : p.WF)
    (h1 : p.acquire = .ok p1 a) (h2 : p1.acquire = .ok p2 b) (hab : a ≠ b) :
    ∃ q r, (((p2.free b).1.free a).1).acquire = .ok q a ∧ q.acquire = .ok r b := by
  obtain ⟨hq1, h0p, ha16, haol, harel, haid, hq1le, -, hfr1, hol1⟩ :=
    acquire_ok_spec p p1 a hwf h1
  have hwf1 := WF_acquire_ok p p1 a hwf h1
  obtain ⟨hq2, -, hb16, hbol, hbrel, hbid, hq2le, -, hfr2, hol2⟩ :=
    acquire_ok_spec p1 p2 b hwf1 h2
  have hp2ptr : p2.pointer = p.pointer + 2 := by omega
  have hp2le : p.pointer + 2 ≤ (p2.stack.length : Int) := by omega
  -- the handle `a` is still marked acquired in `p2`
  have hpa2 : p2.objects.getD a default = p1.objects.getD a default := hfr2 a haol hab
  have harel2 : (p2.objects.getD a default).isReleased = false := by
    rw [hpa2]; exact harel
  have haid2 : (p2.objects.getD a default).id = a := by
    rw [hpa2]; exact haid
  -- free b
  have hbpos : 0 < p2.pointer := by omega
  obtain ⟨f1p, f1s, f1ol, f1sl, -, f1fr⟩ := free_acquired_spec p2 b hbrel hbid hb16 hbpos
  -- the handle `a` is still marked acquired after freeing `b`
  have harel3 : ((p2.free b).1.objects.getD a default).isReleased = false := by
    rw [f1fr a hab]; exact harel2
  have haid3 : ((p2.free b).1.objects.getD a default).id = a := by
    rw [f1fr a hab]; exact haid2
  have hapos : 0 < (p2.free b).1.pointer := by rw [f1p]; omega
  -- free a
  obtain ⟨f2p, f2s, f2ol, f2sl, -, f2fr⟩ :=
    free_acquired_spec (p2.free b).1 a harel3 haid3 ha16 hapos
  have hp4ptr : ((p2.free b).1.free a).1.pointer = p.pointer := by
    rw [f2p, f1p]
    omega
  have hp4sl : ((p2.free b).1.free a).1.stack.length = p2.stack.length := by
    rw [f2sl, f1sl]
  have hp4ol : ((p2.free b).1.free a).1.objects.length = p2.objects.length := by
    rw [f2ol, f1ol]
  have hstack4 : ((p2.free b).1.free a).1.stack =
      (p2.stack.set (p.pointer.toNat + 1) b).set p.pointer.toNat a := by
    rw [f2s, f1s, f1p]
    have e1 : p2.pointer - 1 = p.pointer + 1 := by omega
    rw [e1]
    have e2 : p.pointer + 1 - 1 = p.pointer := by omega
    rw [e2]
    have e3 : (p.pointer + 1).toNat = p.pointer.toNat + 1 := by omega
    rw [e3]
  have hnat2 : p.pointer.toNat + 2 ≤ p2.stack.length := by omega
  have hra : ((p2.free b).1.free a).1.stack.getD
      (((p2.free b).1.free a).1.pointer).toNat 0 = a := by
    rw [hp4ptr, hstack4]
    exact getD_set_same _ _ _ _ (by rw [List.length_set]; omega)
  have hrb : ((p2.free b).1.free a).1.stack.getD
      ((((p2.free b).1.free a).1.pointer).toNat + 1) 0 = b := by
    rw [hp4ptr, hstack4]
    rw [getD_set_ne _ _ _ (by omega)]
    exact getD_set_same _ _ _ _ (by omega)
  exact acquire_two ((p2.free b).1.free a).1 a b
    (by rw [hp4ptr]; omega)
    (by rw [hp4ptr, hp4sl]; omega)
    hra hrb
    (by rw [hp4ol]; omega)
    (by rw [hp4ol]; omega)

theorem claim_C2_witness :
    (ObjectPool.new 2).WF ∧
      (ObjectPool.new 2).acquire = .ok ⟨[0, 1], [⟨0, 0, false⟩, ⟨1, 1, true⟩], 1, 2⟩ 0 ∧
      (⟨[0, 1], [⟨0, 0, false⟩, ⟨1, 1, true⟩], 1, 2⟩ : ObjectPool).acquire =
        .ok ⟨[0, 1], [⟨0, 0, false⟩, ⟨1, 1, false⟩], 2, 2⟩ 1 ∧
      ∃ q r,
        ((((⟨[0, 1], [⟨0, 0, false⟩, ⟨1, 1, false⟩], 2, 2⟩ : ObjectPool).free 1).1.free
              0).1).acquire = .ok q 0 ∧
          q.acquire = .ok r 1 := by
  refine ⟨by decide, by decide, by decide, ?_⟩
  exact claim_C2_lifo (ObjectPool.new 2) ⟨[0, 1], [⟨0, 0, false⟩, ⟨1, 1, true⟩], 1, 2⟩
    ⟨[0, 1], [⟨0, 0, false⟩, ⟨1, 1, false⟩], 2, 2⟩ 0 1
    (by decide) (by decide) (by decide) (by decide)

/-! ## Growth arithmetic -/

theorem growTarget_eq_double (p : ObjectPool) (h1 : 0 < p.stack.length)
    (h2 : 2 * p.stack.length ≤ 65536) : p.growTarget = 2 * (p.stack.length : Int) := by
  simp only [ObjectPool.growTarget, MAX_POOL_SIZE]
  split_ifs <;> omega

theorem growTarget_eq_recompute (p : ObjectPool) (h2 : 65536 < 2 * p.stack.length) :
    p.growTarget =
      min (65536 : Int)
        ((p.stack.length : Int) + (if 0 < p.initialLength then p.initialLength else 8)) := by
  simp only [ObjectPool.growTarget, MAX_POOL_SIZE]
  split_ifs <;> omega

/-- A full pool (`pointer = stack.length`) strictly below the ceiling always
produces a handle on acquire, growing the store to exactly `growTarget`. -/
theorem acquire_on_full (p : ObjectPool) (h : p.I1)
    (hfull : p.pointer = (p.stack.length : Int)) (hlt : p.stack.length < MAX_POOL_SIZE) :
    ∃ q, p.acquire = .ok q p.stack.length ∧ q.objects.length = p.growTarget.toNat := by
  obtain ⟨hI0, -, hIl, -⟩ := h
  have hmx : MAX_POOL_SIZE = 65536 := rfl
  have hu : U16 = 65536 := rfl
  have hgt := lt_growTarget p hlt
  have hgle := growTarget_le p
  have hRsl := resize_stack_length_of_grow p hgt
  have hRol := resize_objects_length_of_grow p hgt
  have hRp := resize_pointer p
  have hread : p.resize.stack.getD (p.resize.pointer).toNat 0 = p.stack.length := by
    rw [hRp]
    have hidx : p.pointer.toNat = p.stack.length := by omega
    rw [hidx, resize_of_grow p hgt]
    dsimp only
    rw [getD_append_right _ _ _ _ (le_refl _)
        (by rw [length_freshSlots]; omega)]
    rw [Nat.sub_self]
    rw [getD_freshSlots _ _ _ (by omega)]
    rw [Nat.add_zero, hu]
    exact Nat.mod_eq_of_lt (by omega)
  have hok := acquireCore_ok p.resize (by rw [hRp]; omega)
    (by rw [hRp]; omega)
    (by rw [hread, hRol]; omega)
  rw [hread] at hok
  rw [← acquire_eq_resize_core_of_le p (by omega)] at hok
  refine ⟨_, hok, ?_⟩
  dsimp only
  rw [List.length_set, hRol]
  omega

/-- C5, counterexample to the claim as stated: `bigPool` (capacity 40000,
seed 20000, every slot acquired, reachable from `new 20000` by 40001
acquires) is below the ceiling, yet the acquire that grows it leaves
`elements.length = 60000` — neither at least doubled (80000) nor equal to
the 65536 cap. -/
theorem claim_C5_counterexample :
    bigPool.pointer = (bigPool.stack.length : Int) ∧
      bigPool.stack.length < MAX_POOL_SIZE ∧
      ∃ q j, bigPool.acquire = .ok q j ∧ q.objects.length = 60000 ∧
        ¬(2 * bigPool.stack.length ≤ q.objects.length) ∧
        q.objects.length ≠ MAX_POOL_SIZE := by
  have hsl : bigPool.stack.length = 40000 := by simp [bigPool]
  have hol : bigPool.objects.length = 40000 := by simp [bigPool]
  have hptr : bigPool.pointer = 40000 := rfl
  have hinit : bigPool.initialLength = 20000 := rfl
  have hgt : bigPool.growTarget = 60000 := by
    rw [growTarget_eq_recompute bigPool (by omega), hsl, hinit]
    norm_num
  have hI : bigPool.I1 := by
    refine ⟨by rw [hptr]; norm_num, by rw [hptr, hsl]; norm_num, by rw [hsl, hol], ?_⟩
    rw [hol]
    norm_num [MAX_POOL_SIZE]
  obtain ⟨q, hq, hqol⟩ := acquire_on_full bigPool hI (by rw [hptr, hsl]; norm_num) (by
    rw [hsl]
    norm_num [MAX_POOL_SIZE])
  rw [hgt] at hqol
  rw [show ((60000 : Int)).toNat = 60000 from rfl] at hqol
  refine ⟨by rw [hptr, hsl]; norm_num, by rw [hsl]; norm_num [MAX_POOL_SIZE], q, _, hq, hqol,
    ?_, ?_⟩
  · rw [hsl, hqol]
    norm_num
  · rw [hqol]
    norm_num [MAX_POOL_SIZE]

/-- C5 as amended: acquiring one more handle from a full pool below the
ceiling always strictly grows `elements.length`, to exactly the computed
growth target: double the capacity whenever doubling stays within the
65536 cap, and `min(65536, capacity + (seed > 0 ? seed : 8))` otherwise —
which can fall short of both doubling and the cap (see the counterexample);
and `elements.length` never decreases under any operation. -/
theorem claim_C5_amended (p : ObjectPool) (h : p.I1)
    (hfull : p.pointer = (p.stack.length : Int)) (hlt : p.stack.length < MAX_POOL_SIZE)
    (id : Int) (i : Nat) :
    (∃ q j, p.acquire = .ok q j ∧ q.objects.length = p.growTarget.toNat ∧
        p.objects.length < q.objects.length ∧
        (0 < p.stack.length → 2 * p.stack.length ≤ 65536 →
          q.objects.length = 2 * p.stack.length) ∧
        (65536 < 2 * p.stack.length →
          q.objects.length =
            (min (65536 : Int)
              ((p.stack.length : Int) +
                (if 0 < p.initialLength then p.initialLength else 8))).toNat)) ∧
      p.objects.length ≤ p.resize.objects.length ∧
      p.objects.length ≤ (p.release id).1.objects.length ∧
      p.objects.length ≤ p.releaseAll.objects.length ∧
      p.objects.length ≤ (p.free i).1.objects.length ∧
      (∀ q j, p.acquire = .ok q j → p.objects.length ≤ q.objects.length) ∧
      (∀ q, p.acquire = .exhausted q → p.objects.length ≤ q.objects.length) ∧
      (∀ q, p.acquire = .typeError q → p.objects.length ≤ q.objects.length) := by
  have hmono_resize : p.objects.length ≤ p.resize.objects.length := by
    by_cases hg : p.growTarget ≤ (p.stack.length : Int)
    · rw [resize_of_nogrow p hg]
    · rw [resize_objects_length_of_grow p (not_le.mp hg)]
      omega
  refine ⟨?_, hmono_resize, ?_, ?_, ?_, ?_, ?_, ?_⟩
  · obtain ⟨q, hq, hqol⟩ := acquire_on_full p h hfull hlt
    have hgt := lt_growTarget p hlt
    have hIl : p.stack.length = p.objects.length := h.2.2.1
    refine ⟨q, p.stack.length, hq, hqol, by omega, ?_, ?_⟩
    · intro hpos hdouble
      rw [hqol, growTarget_eq_double p hpos hdouble]
      omega
    · intro hbig
      rw [hqol, growTarget_eq_recompute p hbig]
  · rw [release_objects]
  · rw [releaseAll_objects_length]
  · by_cases hr : (p.objects.getD i default).isReleased
    · rw [free_of_released p i hr]
    · rw [free_of_acquired p i (by revert hr; cases (p.objects.getD i default).isReleased <;> simp)]
      dsimp only
      rw [List.length_set, release_objects]
  · intro q j hq
    obtain ⟨pr, hpr, -, -, -, holpr, -, -, -, -, rfl⟩ := acquire_ok_inv p q j hq
    dsimp only
    rw [List.length_set]
    exact holpr
  · intro q hq
    obtain ⟨hqe, -⟩ := acquire_exhausted_inv p q hq
    rcases hqe with rfl | rfl
    · exact le_refl _
    · exact hmono_resize
  · intro q hq
    obtain ⟨pr, hpr, rfl, -⟩ := acquire_typeError_inv p q hq
    dsimp only
    rcases hpr with rfl | rfl
    · exact le_refl _
    · exact hmono_resize

theorem claim_C5_witness :
    (⟨[0, 1], [⟨0, 0, false⟩, ⟨1, 1, false⟩], 2, 2⟩ : ObjectPool).I1 ∧
      ∃ q j,
        (⟨[0, 1], [⟨0, 0, false⟩, ⟨1, 1, false⟩], 2, 2⟩ : ObjectPool).acquire = .ok q j ∧
          q.objects.length = 4 := by
  have h := claim_C5_amended ⟨[0, 1], [⟨0, 0, false⟩, ⟨1, 1, false⟩], 2, 2⟩
    (by decide) (by decide) (by decide) 0 0
  obtain ⟨⟨q, j, hq, -, -, hdouble, -⟩, -⟩ := h
  have h4 := hdouble (by decide) (by decide)
  exact ⟨by decide, q, j, hq, by rw [h4]; decide⟩

/-- C9, counterexample to the claim as stated: growing `throwPool` (capacity
2, both slots live, two factory calls so far) with a factory whose fourth
call throws leaves the pool mutated but not fully grown — the exception
escapes after one handle was pushed, so `elements` has 3 entries while the
free stack still has 2. Grow is not all-or-nothing under a throwing
factory. -/
theorem claim_C9_counterexample :
    (throwPool.resizeThrow throwFactory 2).2.2 = true ∧
      (throwPool.resizeThrow throwFactory 2).1 ≠ throwPool ∧
      (throwPool.resizeThrow throwFactory 2).1.objects.length = 3 ∧
      (throwPool.resizeThrow throwFactory 2).1.stack.length = 2 := by
  decide

theorem resizeThrow_nogrow (p : ObjectPool) (ok : Nat → Bool) (calls : Nat)
    (hg : p.growTarget ≤ (p.stack.length : Int)) :
    p.resizeThrow ok calls = (p, calls, false) := by
  unfold ObjectPool.resizeThrow
  rw [if_pos hg]

theorem resizeThrow_grow (p : ObjectPool) (ok : Nat → Bool) (calls : Nat)
    (hg : ¬p.growTarget ≤ (p.stack.length : Int))
    (objs : List ObjectHandle) (calls' : Nat) (thr : Bool)
    (hres : resizeThrowFuel p.objects p.stack.length calls ok
        (p.growTarget.toNat - p.stack.length) = (objs, calls', thr)) :
    p.resizeThrow ok calls =
      if thr then ({ p with objects := objs }, calls', true)
      else
        ({ p with
           objects := objs,
           stack := p.stack ++ freshSlots p.stack.length (p.growTarget.toNat - p.stack.length) },
          calls', false) := by
  unfold ObjectPool.resizeThrow
  rw [if_neg hg, hres]
  cases thr <;> rfl

/-- C9 as amended: `acquire` raising the pool-exhausted error has not
modified the pool (under I1); and grow is atomic on the free stack and the
pointer — when the factory throws partway only `elements` has grown, by the
handles created before the throw, while stack and pointer are untouched;
with a factory that never throws, the fallible grow coincides with the
total grow (all-or-nothing holds). -/
theorem claim_C9_amended (p : ObjectPool) (h : p.I1) (ok : Nat → Bool) (calls : Nat) :
    (∀ q, p.acquire = .exhausted q → q = p) ∧
      ((p.resizeThrow ok calls).2.2 = true →
        (p.resizeThrow ok calls).1.stack = p.stack ∧
          (p.resizeThrow ok calls).1.pointer = p.pointer ∧
          ∃ hs, (p.resizeThrow ok calls).1.objects = p.objects ++ hs) ∧
      ((∀ c, ok c = true) →
        (p.resizeThrow ok calls).1 = p.resize ∧ (p.resizeThrow ok calls).2.2 = false) := by
  obtain ⟨hI0, hI1, hIl, hIm⟩ := h
  refine ⟨?_, ?_, ?_⟩
  · intro q hq
    obtain ⟨hqe, hle⟩ := acquire_exhausted_inv p q hq
    rcases hqe with hq' | hq'
    · exact hq'
    · rcases resize_dichotomy p with hd | hd
      · rw [hq', hd]
      · rw [hq'] at hle
        rw [resize_pointer p] at hle
        omega
  · intro ht
    by_cases hg : p.growTarget ≤ (p.stack.length : Int)
    · rw [resizeThrow_nogrow p ok calls hg] at ht
      simp at ht
    · rcases hres : resizeThrowFuel p.objects p.stack.length calls ok
          (p.growTarget.toNat - p.stack.length) with ⟨objs, calls', thr⟩
      have heq := resizeThrow_grow p ok calls hg objs calls' thr hres
      rw [heq] at ht ⊢
      cases thr with
      | false => simp at ht
      | true =>
        rw [if_pos rfl]
        refine ⟨rfl, rfl, ?_⟩
        have hth := resizeThrowFuel_threw ok (p.growTarget.toNat - p.stack.length)
          p.stack.length calls p.objects (by rw [hres])
        rw [hres] at hth
        exact hth
  · intro hok
    by_cases hg : p.growTarget ≤ (p.stack.length : Int)
    · rw [resizeThrow_nogrow p ok calls hg, resize_of_nogrow p hg]
      exact ⟨rfl, rfl⟩
    · have heq := resizeThrow_grow p ok calls hg
        (p.objects ++ freshHandles p.stack.length (p.growTarget.toNat - p.stack.length))
        (calls + (p.growTarget.toNat - p.stack.length)) false
        (resizeThrowFuel_ok ok hok (p.growTarget.toNat - p.stack.length) p.stack.length calls
          p.objects)
      rw [heq, resize_of_grow p (not_le.mp hg)]
      exact ⟨rfl, rfl⟩

theorem claim_C9_witness :
    pairPool.I1 ∧ (pairPool.resizeThrow (fun _ => true) 0).1 = pairPool.resize ∧
      (pairPool.resizeThrow (fun _ => true) 0).2.2 = false := by
  have h := claim_C9_amended pairPool (by decide) (fun _ => true) 0
  exact ⟨by decide, (h.2.2 (fun c => rfl)).1, (h.2.2 (fun c => rfl)).2⟩

end RPool
